import Mathlib

/-!
Verification development for the DRAM2 annotation merge and
reciprocal-best-hit (RBH) search engine.

The definitions below are a shallow embedding of the Python sources:
  - `dram2/db_kits/utils/__init__.py` (RBH processing, blast-style search,
    significance filtering, hmmscan formatting, thread handling), and
  - `dram2/annotate/__init__.py` (`merge_past_annotations`,
    `get_all_fastas` admission control) and `dram2/annotate/annotate.py`
    (`kofam_hmmscan_formater`, `dbcan_hmmscan_formater`).

Floating point scores are embedded as rationals; pandas DataFrames are
embedded as an ordered row index, an ordered column list and a cell
accessor.  Row order produced by pandas joins is abstracted (the claims
are order independent), while row multiplicity (pandas joins on
duplicated index labels produce one row per matching pair) is modelled
exactly.
-/

set_option maxHeartbeats 1000000

/-- One row of a blast-outformat-6 hit table (`BOUTFMT6_COLUMNS`):
query id, target id, percent identity, bit score, e-value.
(Columns not read by any modelled code path are omitted.) -/
structure BHit where
  qId : String
  tId : String
  seqIdentity : ℚ
  bitScore : ℚ
  eVal : ℚ
deriving Repr, DecidableEq

/-- One row of the table produced by `process_reciprocal_best_hits`:
target hit, RBH flag, identity, bit score, e-value, indexed by the
forward query id (`row.name`). -/
structure RHit where
  hit : String
  RBH : Bool
  identity : ℚ
  bitScore : ℚ
  eVal : ℚ
  queryIndex : String
deriving Repr, DecidableEq

/-- `reverse_hits.loc[t]` on the qId-indexed reverse table: the first row
whose query id is `t` (the reverse table is a top-hit table, so its index
is duplicate free in every call site). -/
def revLookup (reverse_hits : List BHit) (t : String) : Option BHit :=
  reverse_hits.find? (fun r => r.qId == t)

/-- The `check_hit` closure of `process_reciprocal_best_hits`
(dram2/db_kits/utils/__init__.py:122-133): `rbh` is false unless
`row.tId` is in the reverse index and that reverse hit's target equals
the forward query id. -/
def check_hit (reverse_hits : List BHit) (row : BHit) : RHit :=
  let rbh : Bool :=
    match revLookup reverse_hits row.tId with
    | none => false
    | some rv => row.qId == rv.tId
  ⟨row.tId, rbh, row.seqIdentity, row.bitScore, row.eVal, row.qId⟩

/-- `process_reciprocal_best_hits` (dram2/db_kits/utils/__init__.py:107-139):
apply `check_hit` to every forward row. -/
def process_reciprocal_best_hits
    (forward_hits reverse_hits : List BHit) : List RHit :=
  forward_hits.map (check_hit reverse_hits)

/-- Result of `do_blast_style_search`: the column list and rows of the
returned table, plus the thread budget that was handed to the
reverse-direction search (`none` when the reverse search was never
invoked). -/
structure BlastStyleResult where
  cols : List String
  hits : List RHit
  reverseThreads : Option Nat
deriving Repr, DecidableEq

/-- `do_blast_style_search` (dram2/db_kits/utils/__init__.py:232-275).
The forward search result and the would-be reverse search result are
passed as parameters; the empty-file test `stat(forward_hits).st_size == 0`
is the emptiness of the forward hit list.  In the empty case the code
returns `pd.DataFrame(columns=[f"{db_name}_hit"])` without invoking
`get_reciprocal_best_hits`; otherwise the reverse search runs with the
unchanged `threads` argument. -/
def do_blast_style_search (forward_hits reverse_hits : List BHit)
    (db_name : String) (threads : Nat) : BlastStyleResult :=
  if forward_hits.isEmpty then
    ⟨[db_name ++ "_hit"], [], none⟩
  else
    ⟨[db_name ++ "_hit", db_name ++ "_RBH", db_name ++ "_identity",
      db_name ++ "_bitScore", db_name ++ "_eVal"],
      process_reciprocal_best_hits forward_hits reverse_hits,
      some threads⟩

/-- One row of a parsed hmmsearch domain table (`HMMSCAN_ALL_COLUMNS`);
only the columns read by the modelled code paths are kept. -/
structure HmmHit where
  query_id : String
  target_id : String
  target_length : ℚ
  target_start : ℚ
  target_end : ℚ
  full_evalue : ℚ
deriving Repr, DecidableEq

/-- `get_sig_row` (dram2/db_kits/utils/__init__.py:460-469): a hit is
significant iff `(target_end - target_start) / target_length >= 0.35`
and `full_evalue <= evalue_lim`, with `evalue_lim` defaulting to
`1e-15`. -/
def get_sig_row (row : HmmHit) (evalue_lim : ℚ := 1 / 10 ^ 15) : Bool :=
  decide ((row.target_end - row.target_start) / row.target_length ≥ 35 / 100
    ∧ row.full_evalue ≤ evalue_lim)

/-- A formatted annotation table: ordered column names and rows of
(index label, cell values aligned with the columns).  `pd.DataFrame()`
is `⟨[], []⟩`: zero rows and zero columns. -/
structure DFrame where
  cols : List String
  rows : List (String × List String)
deriving Repr, DecidableEq

/-- The empty DataFrame `pd.DataFrame()`. -/
def emptyDFrame : DFrame := ⟨[], []⟩

/-- Keep-first deduplication keyed by `key`, with `seen` the labels
already emitted (models pandas `drop_duplicates(keep="first")` /
`Series.unique`, which keep the first occurrence). -/
def dedupFirstBy {α : Type} (key : α → String) (seen : List String) :
    List α → List α
  | [] => []
  | x :: rest =>
    if seen.contains (key x) then dedupFirstBy key seen rest
    else x :: dedupFirstBy key (key x :: seen) rest

/-- The top-hit selection step of `generic_hmmscan_formater`
(dram2/db_kits/utils/__init__.py:489-491):
`hits_sig.sort_values("full_evalue").drop_duplicates(subset=["query_id"])`
with the default `keep="first"`.  `sort_values` uses pandas' default
unstable quicksort, so the source determines its output only up to being
a reordering of the significant hits that is nondecreasing in
`full_evalue`; the sorted table is therefore passed in as a parameter,
and properties of the selection are quantified over every such legal
sort outcome. -/
def generic_top_hit_rows (sorted_sig : List HmmHit) : List HmmHit :=
  dedupFirstBy (fun r => r.query_id) [] sorted_sig

/-- `generic_hmmscan_formater` (dram2/db_kits/utils/__init__.py:472-510)
on the `hmm_info_path is None` branch: filter by `get_sig_row` at the
default cutoff; if nothing is significant return `pd.DataFrame()`;
otherwise optionally keep only the top hit per query
(`sort_values("full_evalue")` modelled as a stable insertion sort,
then `drop_duplicates(subset=["query_id"])` keeping the first), and emit
a `{db_name}_id` column indexed by query id. -/
def generic_hmmscan_formater (hits : List HmmHit) (db_name : String)
    (top_hit : Bool := true) : DFrame :=
  let hits_sig := hits.filter (fun r => get_sig_row r)
  if hits_sig.length = 0 then emptyDFrame
  else
    let hits_no_dup :=
      if top_hit then
        generic_top_hit_rows
          (List.insertionSort (fun a b => a.full_evalue ≤ b.full_evalue)
            hits_sig)
      else hits_sig
    ⟨[db_name ++ "_id"],
      hits_no_dup.map (fun r => (r.query_id, [r.target_id]))⟩

/-- The per-query coverage used by `find_best_dbcan_hit`
(dram2/annotate/annotate.py:416-423). -/
def dbcan_perc_cov (r : HmmHit) : ℚ :=
  (r.target_end - r.target_start) / r.target_length

/-- `find_best_dbcan_hit` (dram2/annotate/annotate.py:416-423): sort the
group by coverage, then by full e-value (both `sort_values` calls
modelled as stable insertion sorts) and take the first row's target id.
The group is never empty at the call site; `""` stands for that
unreachable case. -/
def find_best_dbcan_hit (group : List HmmHit) : String :=
  let s1 := List.insertionSort (fun a b => dbcan_perc_cov a ≤ dbcan_perc_cov b)
    group
  let s2 := List.insertionSort (fun a b => a.full_evalue ≤ b.full_evalue) s1
  match s2 with
  | [] => ""
  | r :: _ => r.target_id

/-- `hits_sig.groupby("query_id")`: the list of (query id, rows of that
query) pairs.  (pandas emits groups in sorted key order; the claims are
order independent, so first-occurrence order is used.) -/
def groupByQuery (hits : List HmmHit) : List (String × List HmmHit) :=
  (dedupFirstBy (fun q => q) [] (hits.map (fun r => r.query_id))).map
    (fun q => (q, hits.filter (fun r => r.query_id == q)))

/-- `"; ".join(x["target_id"].apply(lambda y: y[:-4]).unique())` from
`dbcan_hmmscan_formater`. -/
def dbcan_ids_joined (group : List HmmHit) : String :=
  String.intercalate "; "
    (dedupFirstBy (fun s => s) [] (group.map (fun r => r.target_id.dropRight 4)))

/-- `dbcan_hmmscan_formater` (dram2/annotate/annotate.py:426-471) with
`db_handler=None`: filter by `get_sig_row` at the overridden cutoff
`1e-18`; if nothing is significant return `pd.DataFrame()`; otherwise
emit one row per query with the joined ids and the best dbcan hit. -/
def dbcan_hmmscan_formater (hits : List HmmHit) (db_name : String) : DFrame :=
  let hits_sig := hits.filter (fun r => get_sig_row r (1 / 10 ^ 18))
  if hits_sig.length = 0 then emptyDFrame
  else
    ⟨[db_name ++ "_ids", db_name ++ "_best_hit"],
      (groupByQuery hits_sig).map
        (fun g => (g.1, [dbcan_ids_joined g.2, find_best_dbcan_hit g.2]))⟩

/-- The top-hit selection of `kofam_hmmscan_formater`
(dram2/annotate/annotate.py:489-495) on one query group:
`best_hit = frame[frame.full_evalue == frame.full_evalue.min()]`
followed by `best_hit["target_id"].iloc[0]`, i.e. the first row of the
group whose e-value equals the group minimum. -/
def kofam_top_hit (frame : List HmmHit) : Option HmmHit :=
  match (frame.map (fun r => r.full_evalue)).min? with
  | none => none
  | some m => (frame.filter (fun r => r.full_evalue == m)).head?

/-- `HMM_SCAN_MAX_THREADS` (dram2/db_kits/utils/__init__.py:95). -/
def HMM_SCAN_MAX_THREADS : Nat := 2

/-- The external `hmmsearch` invocation made by `run_hmmscan`: the value
passed to `--cpu` and whether the over-cap debug message was logged. -/
structure HmmSearchCall where
  cpu : Nat
  debug_logged : Bool
deriving Repr, DecidableEq

/-- The thread handling of `run_hmmscan`
(dram2/db_kits/utils/__init__.py:298-315): when
`threads > HMM_SCAN_MAX_THREADS` a debug message is logged
("Something has gone wrong ..."), and `hmmsearch` is then invoked with
`--cpu str(threads)` — the configured value, uncapped. -/
def run_hmmscan_call (threads : Nat) : HmmSearchCall :=
  ⟨threads, decide (HMM_SCAN_MAX_THREADS < threads)⟩

/-- The thread assignment of `DBKit.set_args`
(dram2/db_kits/utils/__init__.py:766-790): `self.threads = threads`,
with no reference to `max_threads`. -/
def set_args_threads (threads : Nat) : Nat := threads

/-- The re-annotation admission control of `get_all_fastas`
(dram2/annotate/__init__.py:403-425).  The argument is the set of
databases recorded as used in the prior run metadata (`none` when there
is no prior annotation run).  `Except.error inter` models the
`DramUsageError` naming the colliding databases; `Except.ok (some inter)`
models proceeding under `force` with the replacement warning logged;
`Except.ok none` models proceeding silently. -/
def get_all_fastas_check (used_dbs : Option (List String))
    (use_db : List String) (force : Bool) :
    Except (List String) (Option (List String)) :=
  match used_dbs with
  | none => Except.ok none
  | some used =>
    let db_inter := used.filter (fun d => use_db.contains d)
    if 0 < db_inter.length then
      if force then Except.ok (some db_inter)
      else Except.error db_inter
    else Except.ok none

/-- An annotation table (pandas DataFrame): ordered column names, the
ordered row index (gene ids, duplicates kept with multiplicity), and a
cell accessor returning `none` for NaN.  `val` is meaningful on
`idx × cols`; outside that domain its value is irrelevant junk. -/
structure DF where
  cols : List String
  idx : List String
  val : String → String → Option String

/-- `FASTA_COL` (dram2/annotate/__init__.py:90). -/
def FASTA_COL : String := "fasta"

/-- `GENE_ID_COL` (dram2/annotate/__init__.py:91). -/
def GENE_ID_COL : String := "gene_ids"

/-- `known_colliders = {FASTA_COL, GENE_ID_COL}`
(dram2/annotate/__init__.py:834). -/
def known_colliders : List String := [FASTA_COL, GENE_ID_COL]

/-- `set(past.columns) ∩ set(new.columns)`
(dram2/annotate/__init__.py:835-837); the `dedup` models the set. -/
def collidingColumns (past new : DF) : List String :=
  (past.cols.filter (fun c => new.cols.contains c)).dedup

/-- `colliding_columns - known_colliders`
(dram2/annotate/__init__.py:838). -/
def problemColliders (past new : DF) : List String :=
  (collidingColumns past new).filter (fun c => !known_colliders.contains c)

/-- `set(new.index) ∩ set(past.index)`
(dram2/annotate/__init__.py:855-857). -/
def collidingGenes (new past : DF) : List String :=
  (new.idx.filter (fun g => past.idx.contains g)).dedup

/-- `df.loc[ids]` by label: one row per matching occurrence in `df.idx`
for each label of `ids`, in `ids` order. -/
def locDF (df : DF) (ids : List String) : DF :=
  { cols := df.cols
    idx := ids.flatMap (fun k => df.idx.filter (fun g => g == k))
    val := df.val }

/-- `df.drop(cs, axis=1)`. -/
def dropColsDF (df : DF) (cs : List String) : DF :=
  { df with cols := df.cols.filter (fun c => !cs.contains c) }

/-- `df.drop(ids)` (drop every row whose label is in `ids`). -/
def dropRowsDF (df : DF) (ids : List String) : DF :=
  { df with idx := df.idx.filter (fun g => !ids.contains g) }

/-- The row index of `pd.merge(a, b, how="outer", left_index=True,
right_index=True)`: every occurrence of a label of `a` is paired with
every matching occurrence in `b` (or kept alone when `b` lacks the
label), then the labels only in `b` are appended.  pandas sorts the
outer-join index; the claims are order independent, so the order is
abstracted while multiplicities are exact. -/
def joinIdx (a b : List String) : List String :=
  a.flatMap (fun k =>
    if b.contains k then (b.filter (fun g => g == k)).map (fun _ => k)
    else [k])
  ++ b.filter (fun k => !a.contains k)

/-- `pd.merge(a, b, how="outer", left_index=True, right_index=True)`.
The call site guarantees `a.cols` and `b.cols` are disjoint (the
colliding columns were dropped from `b`), so no suffixing is modelled:
a cell takes `a`'s value on `a`'s columns and `b`'s on `b`'s, and is NaN
on the columns of the side that lacks the row. -/
def mergeOuter (a b : DF) : DF :=
  { cols := a.cols ++ b.cols
    idx := joinIdx a.idx b.idx
    val := fun g c =>
      if a.cols.contains c then
        (if a.idx.contains g then a.val g c else none)
      else if b.cols.contains c then
        (if b.idx.contains g then b.val g c else none)
      else none }

/-- `pd.concat([x, y])`: rows stacked, columns aligned by name (union,
NaN where a frame lacks a column).  The call site guarantees the two row
indexes are disjoint, so the accessor may look the row up in `x`
first. -/
def concatRows (x y : DF) : DF :=
  { cols := x.cols ++ y.cols.filter (fun c => !x.cols.contains c)
    idx := x.idx ++ y.idx
    val := fun g c =>
      if x.idx.contains g then
        (if x.cols.contains c then x.val g c else none)
      else if y.idx.contains g then
        (if y.cols.contains c then y.val g c else none)
      else none }

/-- `past_annotations.loc[list(colliding_genes)].drop(list(colliding_columns), axis=1)`
(dram2/annotate/__init__.py:858-860). -/
def pastMerge (new past : DF) : DF :=
  dropColsDF (locDF past (collidingGenes new past)) (collidingColumns past new)

/-- `past_annotations.drop(list(colliding_genes))`
(dram2/annotate/__init__.py:861). -/
def pastAppened (new past : DF) : DF :=
  dropRowsDF past (collidingGenes new past)

/-- The successful branch of `merge_past_annotations`
(dram2/annotate/__init__.py:855-879): outer-join the new table with the
column-trimmed colliding subset of the past table, then concatenate the
non-colliding past rows. -/
def mergeBody (new past : DF) : DF :=
  concatRows (mergeOuter new (pastMerge new past)) (pastAppened new past)

/-- `merge_past_annotations` (dram2/annotate/__init__.py:828-879).
`Except.error l` models the `DramUsageError` whose message joins the
problem colliders `l`; under `force` the collision is only logged as a
warning and the merge proceeds. -/
def merge_past_annotations (new past : DF) (force : Bool) :
    Except (List String) DF :=
  if 0 < (problemColliders past new).length ∧ force = false then
    Except.error (problemColliders past new)
  else
    Except.ok (mergeBody new past)

/-- The guard of the "may not have merged correctly" critical log
(dram2/annotate/__init__.py:870-877):
`len(all_annotations) != max(len(past_annotations_merge), len(new_annotations))`
evaluated on the outer-join result before the concatenation. -/
def merge_row_count_mismatch (new past : DF) : Bool :=
  decide ((mergeOuter new (pastMerge new past)).idx.length
    ≠ max (pastMerge new past).idx.length new.idx.length)

/-! ### Bridging lemmas on lists -/

theorem contains_iff_mem {l : List String} {a : String} :
    l.contains a = true ↔ a ∈ l := by
  simp [List.contains, List.elem_iff]

theorem filter_beq_singleton {l : List String} (hl : l.Nodup) {k : String}
    (hk : k ∈ l) : l.filter (fun g => g == k) = [k] := by
  induction l with
  | nil => cases hk
  | cons a t ih =>
    rcases List.nodup_cons.mp hl with ⟨hat, htd⟩
    rcases List.mem_cons.mp hk with hak | hkt
    · subst hak
      have ht : t.filter (fun g => g == k) = [] := by
        rw [List.filter_eq_nil_iff]
        intro x hx
        simp only [beq_iff_eq]
        intro hxk
        exact hat (hxk ▸ hx)
      simp [List.filter_cons, ht]
    · have hak : (a == k) = false := by
        refine beq_eq_false_iff_ne.mpr ?_
        intro hcontra
        exact hat (hcontra ▸ hkt)
      simp [List.filter_cons, hak, ih htd hkt]

theorem flatMap_singleton (f : String → List String) (l : List String)
    (hf : ∀ k ∈ l, f k = [k]) : l.flatMap f = l := by
  induction l with
  | nil => rfl
  | cons a t ih =>
    simp only [List.flatMap_cons, hf a (List.mem_cons_self a t)]
    simp [ih (fun k hk => hf k (List.mem_cons_of_mem a hk))]

theorem joinIdx_eq_left {a b : List String} (hb : b.Nodup)
    (hsub : ∀ x ∈ b, x ∈ a) : joinIdx a b = a := by
  unfold joinIdx
  have h2 : b.filter (fun k => !a.contains k) = [] := by
    rw [List.filter_eq_nil_iff]
    intro x hx
    simpa using hsub x hx
  rw [h2, List.append_nil]
  refine flatMap_singleton _ _ (fun k _ => ?_)
  by_cases hkb : k ∈ b
  · rw [if_pos (contains_iff_mem.mpr hkb), filter_beq_singleton hb hkb]
    rfl
  · rw [if_neg (by simp [contains_iff_mem, hkb])]

theorem mem_joinIdx_left {a b : List String} {g : String} (h : g ∈ a) :
    g ∈ joinIdx a b := by
  unfold joinIdx
  refine List.mem_append_left _ (List.mem_flatMap.mpr ⟨g, h, ?_⟩)
  by_cases hgb : g ∈ b
  · rw [if_pos (contains_iff_mem.mpr hgb)]
    have : g ∈ b.filter (fun x => x == g) :=
      List.mem_filter.mpr ⟨hgb, by simp⟩
    exact List.mem_map.mpr ⟨g, this, rfl⟩
  · rw [if_neg (by simp [contains_iff_mem, hgb])]
    exact List.mem_singleton.mpr rfl

theorem mem_joinIdx {a b : List String} {g : String} (h : g ∈ joinIdx a b) :
    g ∈ a ∨ g ∈ b := by
  unfold joinIdx at h
  rcases List.mem_append.mp h with h1 | h1
  · rcases List.mem_flatMap.mp h1 with ⟨k, hk, hgk⟩
    left
    by_cases hkb : k ∈ b
    · rw [if_pos (contains_iff_mem.mpr hkb)] at hgk
      rcases List.mem_map.mp hgk with ⟨_, _, hrfl⟩
      exact hrfl ▸ hk
    · rw [if_neg (by simp [contains_iff_mem, hkb])] at hgk
      exact (List.mem_singleton.mp hgk) ▸ hk
  · exact Or.inr (List.mem_filter.mp h1).1

theorem filter_head?_eq_find? {α : Type} (p : α → Bool) (l : List α) :
    (l.filter p).head? = l.find? p := by
  induction l with
  | nil => rfl
  | cons a t ih =>
    by_cases hp : p a <;> simp [List.filter_cons, List.find?_cons, hp, ih]

theorem find?_decomp {α : Type} (p : α → Bool) (l : List α) (a : α)
    (h : l.find? p = some a) :
    ∃ pre post, l = pre ++ a :: post ∧ ∀ x ∈ pre, p x = false := by
  induction l with
  | nil => simp at h
  | cons b t ih =>
    by_cases hp : p b
    · rw [List.find?_cons_of_pos _ hp] at h
      obtain rfl := Option.some.inj h
      exact ⟨[], t, rfl, by simp⟩
    · rw [List.find?_cons_of_neg _ hp] at h
      obtain ⟨pre, post, heq, hpre⟩ := ih h
      refine ⟨b :: pre, post, by simp [heq], ?_⟩
      intro x hx
      rcases List.mem_cons.mp hx with h1 | h1
      · simpa [h1] using hp
      · exact hpre x h1

/-! ### Claim theorems -/

/-- Claim C1: for every forward hit row processed by
`process_reciprocal_best_hits`, the output row exists (so a forward row
whose target has no reverse-index entry is present, not missing), its
hit is the forward target, its RBH flag is true iff the forward target
appears in the reverse-hit index with a reverse target equal to the
original forward query, and it is false whenever the reverse index lacks
the target. -/
theorem C1_rbh_classification (forward_hits reverse_hits : List BHit)
    (i : ℕ) (h : i < forward_hits.length) :
    ∃ out, (process_reciprocal_best_hits forward_hits reverse_hits)[i]? = some out ∧
      out.hit = forward_hits[i].tId ∧
      (out.RBH = true ↔
        ∃ rv, revLookup reverse_hits forward_hits[i].tId = some rv ∧
          rv.tId = forward_hits[i].qId) ∧
      (revLookup reverse_hits forward_hits[i].tId = none → out.RBH = false) := by
  refine ⟨check_hit reverse_hits forward_hits[i], ?_, rfl, ?_, ?_⟩
  · simp [process_reciprocal_best_hits, List.getElem?_eq_getElem h]
  · cases hrv : revLookup reverse_hits forward_hits[i].tId with
    | none => simp [check_hit, hrv]
    | some rv =>
      simp only [check_hit, hrv]
      constructor
      · intro hb
        exact ⟨rv, rfl, (beq_iff_eq.mp hb).symm⟩
      · rintro ⟨rv2, hrv2, ht⟩
        obtain rfl := Option.some.inj hrv2
        exact beq_iff_eq.mpr ht.symm
  · intro hrv
    simp [check_hit, hrv]

/-- Concrete forward hit table for the C1 witness. -/
def c1Forward : List BHit := [⟨"q1", "t1", 90, 100, 0⟩]

/-- Concrete reverse hit table for the C1 witness. -/
def c1Reverse : List BHit := [⟨"t1", "q1", 90, 100, 0⟩]

/-- Witness for C1 at a concrete reciprocal pair. -/
theorem C1_rbh_classification_witness :
    0 < c1Forward.length ∧
    ∃ out, (process_reciprocal_best_hits c1Forward c1Reverse)[0]? = some out ∧
      out.hit = "t1" ∧
      (out.RBH = true ↔
        ∃ rv, revLookup c1Reverse "t1" = some rv ∧ rv.tId = "q1") ∧
      (revLookup c1Reverse "t1" = none → out.RBH = false) := by
  refine ⟨by decide, ?_⟩
  have h := C1_rbh_classification c1Forward c1Reverse 0 (by decide)
  simpa [c1Forward] using h

/-- Claim C5: `do_blast_style_search` with an empty forward result
returns an empty table and never invokes the reverse search, and with
any non-empty forward result it invokes the reverse search with exactly
the configured thread budget. -/
theorem C5_forward_empty_no_reverse (reverse_hits : List BHit)
    (db_name : String) (threads : Nat) :
    ((do_blast_style_search [] reverse_hits db_name threads).hits = [] ∧
      (do_blast_style_search [] reverse_hits db_name threads).reverseThreads
        = none) ∧
    ∀ (hd : BHit) (tl : List BHit),
      (do_blast_style_search (hd :: tl) reverse_hits db_name
        threads).reverseThreads = some threads :=
  ⟨⟨rfl, rfl⟩, fun _ _ => rfl⟩

/-- Claim C9 (code evaluated at the failing input): with a configured
budget of 10 threads, `run_hmmscan` invokes `hmmsearch --cpu 10` — the
uncapped budget assigned by `DBKit.set_args` — which differs from
`min 10 HMM_SCAN_MAX_THREADS = 2`; only the debug message is emitted. -/
theorem C9_hmmscan_threads_uncapped :
    (run_hmmscan_call (set_args_threads 10)).cpu = 10 ∧
    (run_hmmscan_call (set_args_threads 10)).cpu
      ≠ min 10 HMM_SCAN_MAX_THREADS ∧
    (run_hmmscan_call (set_args_threads 10)).debug_logged = true := by
  decide

/-- Claim C8: when the requested databases intersect the databases
recorded as applied, the run is refused without force (with the error
carrying exactly the colliding databases) and proceeds with a
replacement warning under force; an empty intersection proceeds without
error. -/
theorem C8_reannotation_admission (used use_db : List String)
    (force : Bool) :
    (used.filter (fun d => use_db.contains d) ≠ [] → force = false →
      get_all_fastas_check (some used) use_db force
        = Except.error (used.filter (fun d => use_db.contains d)) ∧
      ∀ d, d ∈ used.filter (fun d => use_db.contains d) ↔
        (d ∈ used ∧ d ∈ use_db)) ∧
    (used.filter (fun d => use_db.contains d) ≠ [] → force = true →
      get_all_fastas_check (some used) use_db force
        = Except.ok (some (used.filter (fun d => use_db.contains d)))) ∧
    (used.filter (fun d => use_db.contains d) = [] →
      get_all_fastas_check (some used) use_db force = Except.ok none) := by
  have hdef : get_all_fastas_check (some used) use_db force
      = (if 0 < (used.filter (fun d => use_db.contains d)).length then
          (if force then
            Except.ok (some (used.filter (fun d => use_db.contains d)))
          else Except.error (used.filter (fun d => use_db.contains d)))
        else Except.ok none) := rfl
  refine ⟨?_, ?_, ?_⟩
  · intro hne hforce
    subst hforce
    have hlen : 0 < (used.filter (fun d => use_db.contains d)).length :=
      List.length_pos.mpr hne
    refine ⟨?_, ?_⟩
    · rw [hdef, if_pos hlen]
      rfl
    · intro d
      simp [List.mem_filter]
  · intro hne hforce
    subst hforce
    have hlen : 0 < (used.filter (fun d => use_db.contains d)).length :=
      List.length_pos.mpr hne
    rw [hdef, if_pos hlen]
    rfl
  · intro hnil
    rw [hdef, hnil]
    rfl

/-- Witness for C8 at a concrete collision. -/
theorem C8_reannotation_admission_witness :
    (["kegg"].filter (fun d => ["kegg", "dbcan"].contains d) ≠ []) ∧
    get_all_fastas_check (some ["kegg"]) ["kegg", "dbcan"] false
      = Except.error ["kegg"] := by
  refine ⟨by decide, ?_⟩
  have h :=
    (C8_reannotation_admission ["kegg"] ["kegg", "dbcan"] false).1
      (by decide) rfl
  simpa using h.1

/-- Claim C6: a profile/HMM hit row passes the significance filter iff
its target coverage is at least 0.35 and its full e-value is at most the
cutoff (1e-15 by default, 1e-18 for dbcan), and each formatter returns
the empty table — zero rows and zero columns — exactly when no row
passes its filter. -/
theorem C6_significance_filter (row : HmmHit) (evalue_lim : ℚ)
    (hits : List HmmHit) (db_name : String) :
    (get_sig_row row evalue_lim = true ↔
      ((row.target_end - row.target_start) / row.target_length ≥ 35 / 100 ∧
        row.full_evalue ≤ evalue_lim)) ∧
    (generic_hmmscan_formater hits db_name = emptyDFrame ↔
      hits.filter (fun r => get_sig_row r) = []) ∧
    (dbcan_hmmscan_formater hits db_name = emptyDFrame ↔
      hits.filter (fun r => get_sig_row r (1 / 10 ^ 18)) = []) := by
  refine ⟨by simp [get_sig_row], ?_, ?_⟩
  · by_cases hs : hits.filter (fun r => get_sig_row r) = []
    · simp [generic_hmmscan_formater, hs, emptyDFrame]
    · have hlen : ¬ (hits.filter (fun r => get_sig_row r)).length = 0 := by
        simpa using hs
      simp [generic_hmmscan_formater, hlen, hs, emptyDFrame]
  · by_cases hs : hits.filter (fun r => get_sig_row r (1 / 10 ^ 18)) = []
    · simp [dbcan_hmmscan_formater, hs, emptyDFrame]
    · have hlen :
          ¬ (hits.filter (fun r => get_sig_row r (1 / 10 ^ 18))).length = 0 := by
        simpa using hs
      simp [dbcan_hmmscan_formater, hlen, hs, emptyDFrame]

theorem foldl_min_mem (l : List ℚ) (a : ℚ) : l.foldl min a ∈ a :: l := by
  induction l generalizing a with
  | nil => simp
  | cons b t ih =>
    have h := ih (min a b)
    rcases List.mem_cons.mp h with hh | hh
    · rcases min_choice a b with hc | hc
      · exact List.mem_cons.mpr (Or.inl (hh.trans hc))
      · exact List.mem_cons.mpr (Or.inr (List.mem_cons.mpr
          (Or.inl (hh.trans hc))))
    · exact List.mem_cons.mpr (Or.inr (List.mem_cons.mpr (Or.inr hh)))

theorem foldl_min_le_init (l : List ℚ) (a : ℚ) : l.foldl min a ≤ a := by
  induction l generalizing a with
  | nil => exact le_refl a
  | cons b t ih => exact le_trans (ih (min a b)) (min_le_left a b)

theorem foldl_min_le_mem (l : List ℚ) (a : ℚ) :
    ∀ y ∈ l, l.foldl min a ≤ y := by
  induction l generalizing a with
  | nil => intro y hy; cases hy
  | cons b t ih =>
    intro y hy
    rcases List.mem_cons.mp hy with rfl | hyt
    · exact le_trans (foldl_min_le_init t (min a y)) (min_le_right a y)
    · exact ih (min a b) y hyt

theorem min?_spec {l : List ℚ} {m : ℚ} (h : l.min? = some m) :
    m ∈ l ∧ ∀ y ∈ l, m ≤ y := by
  cases l with
  | nil => simp [List.min?] at h
  | cons a t =>
    have hm : m = t.foldl min a := by
      have := h.symm
      simpa [List.min?] using this
    refine ⟨?_, ?_⟩
    · rw [hm]; exact foldl_min_mem t a
    · intro y hy
      rcases List.mem_cons.mp hy with rfl | hyt
      · rw [hm]; exact foldl_min_le_init t y
      · rw [hm]; exact foldl_min_le_mem t a y hyt

/-- Per-group specification of the kofam top-hit selection
(dram2/annotate/annotate.py:489-495): the selected row belongs to the
group, has the group-minimum full e-value, and every group row before
it has a strictly larger e-value. -/
theorem kofam_top_hit_spec (hits : List HmmHit) (q : String) (r : HmmHit)
    (h : kofam_top_hit (hits.filter (fun x => x.query_id == q)) = some r) :
    r ∈ hits.filter (fun x => x.query_id == q) ∧
    (∀ x ∈ hits.filter (fun x => x.query_id == q),
      r.full_evalue ≤ x.full_evalue) ∧
    ∃ pre post, hits.filter (fun x => x.query_id == q) = pre ++ r :: post ∧
      ∀ x ∈ pre, r.full_evalue < x.full_evalue := by
  unfold kofam_top_hit at h
  cases hm : ((hits.filter (fun x => x.query_id == q)).map
      (fun x => x.full_evalue)).min? with
  | none => rw [hm] at h; cases h
  | some m =>
    rw [hm] at h
    replace h : ((hits.filter (fun x => x.query_id == q)).filter
        (fun x => x.full_evalue == m)).head? = some r := h
    rw [filter_head?_eq_find?] at h
    have hpr := List.find?_some h
    have hrm : r.full_evalue = m := by simpa using hpr
    have hmem := List.mem_of_find?_eq_some h
    obtain ⟨-, hmin⟩ := min?_spec hm
    refine ⟨hmem, ?_, ?_⟩
    · intro x hx
      rw [hrm]
      exact hmin _ (List.mem_map_of_mem _ hx)
    · obtain ⟨pre, post, heq, hpre⟩ := find?_decomp _ _ _ h
      refine ⟨pre, post, heq, ?_⟩
      intro x hx
      have hxg : x ∈ hits.filter (fun x => x.query_id == q) := by
        rw [heq]; exact List.mem_append_left _ hx
      have hle : m ≤ x.full_evalue := hmin _ (List.mem_map_of_mem _ hxg)
      have hne : x.full_evalue ≠ m := by
        intro hcontra
        have := hpre x hx
        rw [hcontra] at this
        simp at this
      rw [hrm]
      exact lt_of_le_of_ne hle (fun hh => hne hh.symm)

theorem mem_dedupFirstBy {α : Type} (key : α → String) (seen : List String)
    (l : List α) (s : α) :
    s ∈ dedupFirstBy key seen l ↔
      key s ∉ seen ∧ (l.filter (fun x => key x == key s)).head? = some s := by
  induction l generalizing seen with
  | nil => simp [dedupFirstBy]
  | cons x rest ih =>
    have hstep : dedupFirstBy key seen (x :: rest)
        = if seen.contains (key x) then dedupFirstBy key seen rest
          else x :: dedupFirstBy key (key x :: seen) rest := rfl
    by_cases hx : seen.contains (key x) = true
    · rw [hstep, if_pos hx, ih]
      by_cases hkey : key x = key s
      · have hxs : key s ∈ seen := hkey ▸ contains_iff_mem.mp hx
        constructor
        · rintro ⟨hns, -⟩
          exact absurd hxs hns
        · rintro ⟨hns, -⟩
          exact absurd hxs hns
      · rw [List.filter_cons_of_neg (by simpa using hkey)]
    · rw [hstep, if_neg hx]
      constructor
      · intro hmem
        rcases List.mem_cons.mp hmem with rfl | hmem2
        · refine ⟨fun hcon => hx (contains_iff_mem.mpr hcon), ?_⟩
          rw [List.filter_cons_of_pos (by simp)]
          rfl
        · obtain ⟨hns', hhead⟩ := (ih (key x :: seen)).mp hmem2
          have hkey : key s ≠ key x := fun hc => hns' (by simp [hc])
          refine ⟨fun hcon => hns' (List.mem_cons_of_mem _ hcon), ?_⟩
          rw [List.filter_cons_of_neg
            (by simpa using fun hc : key x = key s => hkey hc.symm)]
          exact hhead
      · rintro ⟨hns, hhead⟩
        by_cases hkey : key x = key s
        · rw [List.filter_cons_of_pos (by simpa using hkey)] at hhead
          have hxs : x = s := by simpa using hhead
          exact hxs ▸ List.mem_cons_self _ _
        · rw [List.filter_cons_of_neg (by simpa using hkey)] at hhead
          refine List.mem_cons_of_mem _ ((ih (key x :: seen)).mpr ⟨?_, hhead⟩)
          intro hcon
          rcases List.mem_cons.mp hcon with h1 | h1
          · exact hkey h1.symm
          · exact hns h1

theorem mem_generic_top_hit_rows (l : List HmmHit) (s : HmmHit) :
    s ∈ generic_top_hit_rows l ↔
      (l.filter (fun x => x.query_id == s.query_id)).head? = some s := by
  have h := mem_dedupFirstBy (fun r => r.query_id) [] l s
  simpa [generic_top_hit_rows] using h

theorem generic_top_hit_sound {sorted_sig hits : List HmmHit}
    (hperm : sorted_sig.Perm hits)
    (hsorted : sorted_sig.Pairwise (fun a b => a.full_evalue ≤ b.full_evalue))
    {s : HmmHit} (hs : s ∈ generic_top_hit_rows sorted_sig) :
    s ∈ hits ∧ ∀ x ∈ hits, x.query_id = s.query_id →
      s.full_evalue ≤ x.full_evalue := by
  have hhead := (mem_generic_top_hit_rows sorted_sig s).mp hs
  obtain ⟨tail, hft⟩ : ∃ tail,
      sorted_sig.filter (fun x => x.query_id == s.query_id) = s :: tail := by
    cases hf : sorted_sig.filter (fun x => x.query_id == s.query_id) with
    | nil => rw [hf] at hhead; cases hhead
    | cons a t =>
      rw [hf] at hhead
      have has : a = s := by simpa using hhead
      exact ⟨t, by rw [has]⟩
  have hmem_sorted : s ∈ sorted_sig :=
    List.mem_of_mem_filter (by rw [hft]; exact List.mem_cons_self _ _)
  refine ⟨hperm.mem_iff.mp hmem_sorted, ?_⟩
  intro x hx hxq
  have hxs : x ∈ sorted_sig := hperm.mem_iff.mpr hx
  have hxf : x ∈ sorted_sig.filter (fun y => y.query_id == s.query_id) :=
    List.mem_filter.mpr ⟨hxs, by simp [hxq]⟩
  rw [hft] at hxf
  rcases List.mem_cons.mp hxf with rfl | hxt
  · exact le_refl _
  · have hpf : (sorted_sig.filter
        (fun x => x.query_id == s.query_id)).Pairwise
        (fun a b => a.full_evalue ≤ b.full_evalue) :=
      hsorted.sublist (List.filter_sublist _)
    rw [hft] at hpf
    exact (List.pairwise_cons.mp hpf).1 x hxt

theorem generic_top_hit_complete (sorted_sig : List HmmHit) {x : HmmHit}
    (hx : x ∈ sorted_sig) :
    ∃ s ∈ generic_top_hit_rows sorted_sig, s.query_id = x.query_id ∧
      ∀ s2 ∈ generic_top_hit_rows sorted_sig,
        s2.query_id = x.query_id → s2 = s := by
  obtain ⟨s, tail, hft⟩ : ∃ s tail,
      sorted_sig.filter (fun y => y.query_id == x.query_id) = s :: tail := by
    cases hf : sorted_sig.filter (fun y => y.query_id == x.query_id) with
    | nil =>
      have hxf : x ∈ sorted_sig.filter (fun y => y.query_id == x.query_id) :=
        List.mem_filter.mpr ⟨hx, by simp⟩
      rw [hf] at hxf
      cases hxf
    | cons a t => exact ⟨a, t, rfl⟩
  have hsq : s.query_id = x.query_id := by
    have hmem : s ∈ sorted_sig.filter (fun y => y.query_id == x.query_id) := by
      rw [hft]
      exact List.mem_cons_self _ _
    simpa using (List.mem_filter.mp hmem).2
  have hfun : (fun y : HmmHit => y.query_id == s.query_id)
      = (fun y => y.query_id == x.query_id) := by
    funext y
    rw [hsq]
  have hsmem : s ∈ generic_top_hit_rows sorted_sig := by
    rw [mem_generic_top_hit_rows, hfun, hft]
    rfl
  refine ⟨s, hsmem, hsq, ?_⟩
  intro s2 hs2 hs2q
  have hhead2 := (mem_generic_top_hit_rows sorted_sig s2).mp hs2
  have hfun2 : (fun y : HmmHit => y.query_id == s2.query_id)
      = (fun y => y.query_id == x.query_id) := by
    funext y
    rw [hs2q]
  rw [hfun2, hft] at hhead2
  simpa using hhead2.symm

/-- Claim C7 (amended): top-hit selection keeps, within each query-id
group, exactly one row, and that row has the group-minimum full
e-value; the kofam formatter additionally keeps, among rows tied at the
minimum, the one occurring first in the input order, while the generic
hmmscan formatter's selection — an unstable `sort_values` followed by
`drop_duplicates(keep="first")` — guarantees only a minimum-e-value
row, for every sort outcome the source admits (any e-value-nondecreasing
reordering of the significant hits). -/
theorem C7_top_hit_selection (hits : List HmmHit) (q : String) (r : HmmHit)
    (sorted_sig : List HmmHit) (hperm : sorted_sig.Perm hits)
    (hsorted : sorted_sig.Pairwise (fun a b => a.full_evalue ≤ b.full_evalue))
    (hkof : kofam_top_hit (hits.filter (fun x => x.query_id == q)) = some r) :
    (r ∈ hits.filter (fun x => x.query_id == q) ∧
      (∀ x ∈ hits.filter (fun x => x.query_id == q),
        r.full_evalue ≤ x.full_evalue) ∧
      ∃ pre post, hits.filter (fun x => x.query_id == q) = pre ++ r :: post ∧
        ∀ x ∈ pre, r.full_evalue < x.full_evalue) ∧
    (∀ s ∈ generic_top_hit_rows sorted_sig,
      s ∈ hits ∧ ∀ x ∈ hits, x.query_id = s.query_id →
        s.full_evalue ≤ x.full_evalue) ∧
    (∀ x ∈ hits, ∃ s ∈ generic_top_hit_rows sorted_sig,
      s.query_id = x.query_id ∧
      ∀ s2 ∈ generic_top_hit_rows sorted_sig,
        s2.query_id = x.query_id → s2 = s) := by
  refine ⟨kofam_top_hit_spec hits q r hkof, ?_, ?_⟩
  · intro s hs
    exact generic_top_hit_sound hperm hsorted hs
  · intro x hx
    exact generic_top_hit_complete sorted_sig (hperm.mem_iff.mpr hx)

/-- Concrete hit table for the C7 witness: two rows of query `g1` tied
at the minimum e-value, plus a row of another query; the list is already
nondecreasing in e-value, so it is its own legal sort outcome. -/
def c7Hits : List HmmHit :=
  [⟨"g1", "t1", 100, 0, 50, 1⟩, ⟨"g1", "t2", 100, 0, 50, 1⟩,
   ⟨"g2", "t3", 100, 0, 50, 2⟩]

/-- Witness for C7: on the tied group `g1` the kofam selection keeps the
first tied row (`t1`), and the generic selection on the sorted table
keeps one minimum-e-value row per query. -/
theorem C7_top_hit_selection_witness :
    (c7Hits.Perm c7Hits ∧
      c7Hits.Pairwise (fun a b => a.full_evalue ≤ b.full_evalue) ∧
      kofam_top_hit (c7Hits.filter (fun x => x.query_id == "g1"))
        = some ⟨"g1", "t1", 100, 0, 50, 1⟩) ∧
    (((⟨"g1", "t1", 100, 0, 50, 1⟩ : HmmHit)
        ∈ c7Hits.filter (fun x => x.query_id == "g1") ∧
      (∀ x ∈ c7Hits.filter (fun x => x.query_id == "g1"),
        (⟨"g1", "t1", 100, 0, 50, 1⟩ : HmmHit).full_evalue ≤ x.full_evalue) ∧
      ∃ pre post,
        c7Hits.filter (fun x => x.query_id == "g1")
          = pre ++ (⟨"g1", "t1", 100, 0, 50, 1⟩ : HmmHit) :: post ∧
        ∀ x ∈ pre,
          (⟨"g1", "t1", 100, 0, 50, 1⟩ : HmmHit).full_evalue
            < x.full_evalue) ∧
    (∀ s ∈ generic_top_hit_rows c7Hits,
      s ∈ c7Hits ∧ ∀ x ∈ c7Hits, x.query_id = s.query_id →
        s.full_evalue ≤ x.full_evalue) ∧
    (∀ x ∈ c7Hits, ∃ s ∈ generic_top_hit_rows c7Hits,
      s.query_id = x.query_id ∧
      ∀ s2 ∈ generic_top_hit_rows c7Hits,
        s2.query_id = x.query_id → s2 = s)) :=
  ⟨⟨List.Perm.refl _, by decide, by decide⟩,
    C7_top_hit_selection c7Hits "g1" _ c7Hits (List.Perm.refl _) (by decide)
      (by decide)⟩

/-- First-occurring row of the tied pair in the C7 counterexample
input. -/
def c7RowFirst : HmmHit := ⟨"g1", "t1", 100, 0, 50, 1⟩

/-- Second-occurring row of the tied pair, tied with the first at the
minimum e-value. -/
def c7RowSecond : HmmHit := ⟨"g1", "t2", 100, 0, 50, 1⟩

/-- Counterexample for C7 as frozen: `[c7RowSecond, c7RowFirst]` is a
legal output of the generic formatter's unstable
`sort_values("full_evalue")` on the input `[c7RowFirst, c7RowSecond]`
— it is a permutation of it and nondecreasing in e-value, the only
properties the source guarantees — yet `drop_duplicates` applied to it
keeps `c7RowSecond`, not the tied row occurring first in the input
order (the head of the input's `g1` group). -/
theorem C7_top_hit_selection_counterexample :
    [c7RowSecond, c7RowFirst].Perm [c7RowFirst, c7RowSecond] ∧
    List.Pairwise (fun a b => a.full_evalue ≤ b.full_evalue)
      [c7RowSecond, c7RowFirst] ∧
    ([c7RowFirst, c7RowSecond].filter
      (fun x => x.query_id == "g1")).head? = some c7RowFirst ∧
    generic_top_hit_rows [c7RowSecond, c7RowFirst] = [c7RowSecond] ∧
    c7RowSecond ≠ c7RowFirst ∧
    c7RowSecond.full_evalue = c7RowFirst.full_evalue :=
  ⟨List.Perm.swap _ _ _, by decide, by decide, by decide, by decide,
    by decide⟩

/-! ### Lemmas on the DataFrame operations -/

theorem mergeOuter_idx (a b : DF) :
    (mergeOuter a b).idx = joinIdx a.idx b.idx := rfl

theorem mergeOuter_cols (a b : DF) :
    (mergeOuter a b).cols = a.cols ++ b.cols := rfl

theorem concatRows_idx (x y : DF) : (concatRows x y).idx = x.idx ++ y.idx := rfl

theorem pastMerge_cols (n p : DF) :
    (pastMerge n p).cols
      = p.cols.filter (fun c => !(collidingColumns p n).contains c) := rfl

theorem pastMerge_val (n p : DF) : (pastMerge n p).val = p.val := rfl

theorem pastAppened_idx (n p : DF) :
    (pastAppened n p).idx
      = p.idx.filter (fun g => !(collidingGenes n p).contains g) := rfl

theorem pastAppened_cols (n p : DF) : (pastAppened n p).cols = p.cols := rfl

theorem pastAppened_val (n p : DF) : (pastAppened n p).val = p.val := rfl

theorem mergeBody_idx (n p : DF) :
    (mergeBody n p).idx
      = joinIdx n.idx (pastMerge n p).idx ++ (pastAppened n p).idx := rfl

theorem mem_collidingGenes {n p : DF} {g : String} :
    g ∈ collidingGenes n p ↔ g ∈ n.idx ∧ g ∈ p.idx := by
  simp [collidingGenes, List.mem_dedup, List.mem_filter]

theorem nodup_collidingGenes (n p : DF) : (collidingGenes n p).Nodup :=
  List.nodup_dedup _

theorem mem_collidingColumns {p n : DF} {c : String} :
    c ∈ collidingColumns p n ↔ c ∈ p.cols ∧ c ∈ n.cols := by
  simp [collidingColumns, List.mem_dedup, List.mem_filter]

theorem mem_pastMerge_idx {n p : DF} {g : String} :
    g ∈ (pastMerge n p).idx ↔ g ∈ collidingGenes n p ∧ g ∈ p.idx := by
  show g ∈ (collidingGenes n p).flatMap
      (fun k => p.idx.filter (fun x => x == k)) ↔ _
  constructor
  · intro h
    rcases List.mem_flatMap.mp h with ⟨k, hk, hg⟩
    rcases List.mem_filter.mp hg with ⟨hgp, hgk⟩
    have hgeq : g = k := by simpa using hgk
    exact ⟨hgeq ▸ hk, hgp⟩
  · rintro ⟨hgc, hgp⟩
    exact List.mem_flatMap.mpr ⟨g, hgc, List.mem_filter.mpr ⟨hgp, by simp⟩⟩

theorem concatRows_val_left (x y : DF) {g c : String} (hg : g ∈ x.idx)
    (hc : c ∈ x.cols) : (concatRows x y).val g c = x.val g c := by
  unfold concatRows
  dsimp only
  rw [if_pos (contains_iff_mem.mpr hg), if_pos (contains_iff_mem.mpr hc)]

theorem concatRows_val_right (x y : DF) {g c : String} (hg : g ∉ x.idx)
    (hgy : g ∈ y.idx) (hc : c ∈ y.cols) :
    (concatRows x y).val g c = y.val g c := by
  unfold concatRows
  dsimp only
  rw [if_neg (fun hcon => hg (contains_iff_mem.mp hcon)),
    if_pos (contains_iff_mem.mpr hgy), if_pos (contains_iff_mem.mpr hc)]

theorem mergeOuter_val_left (a b : DF) {g c : String} (hg : g ∈ a.idx)
    (hc : c ∈ a.cols) : (mergeOuter a b).val g c = a.val g c := by
  unfold mergeOuter
  dsimp only
  rw [if_pos (contains_iff_mem.mpr hc), if_pos (contains_iff_mem.mpr hg)]

theorem mergeOuter_val_right (a b : DF) {g c : String} (hcn : c ∉ a.cols)
    (hcb : c ∈ b.cols) (hgb : g ∈ b.idx) :
    (mergeOuter a b).val g c = b.val g c := by
  unfold mergeOuter
  dsimp only
  rw [if_neg (fun hcon => hcn (contains_iff_mem.mp hcon)),
    if_pos (contains_iff_mem.mpr hcb), if_pos (contains_iff_mem.mpr hgb)]

theorem mergeBody_val_new (newT pastT : DF) {g c : String}
    (hg : g ∈ newT.idx) (hc : c ∈ newT.cols) :
    (mergeBody newT pastT).val g c = newT.val g c := by
  have hgx : g ∈ (mergeOuter newT (pastMerge newT pastT)).idx := by
    rw [mergeOuter_idx]
    exact mem_joinIdx_left hg
  have hcx : c ∈ (mergeOuter newT (pastMerge newT pastT)).cols := by
    rw [mergeOuter_cols]
    exact List.mem_append_left _ hc
  unfold mergeBody
  rw [concatRows_val_left _ _ hgx hcx, mergeOuter_val_left _ _ hg hc]

theorem mergeBody_val_past_only (newT pastT : DF) {g c : String}
    (hg : g ∈ newT.idx) (hgp : g ∈ pastT.idx) (hcp : c ∈ pastT.cols)
    (hcn : c ∉ newT.cols) :
    (mergeBody newT pastT).val g c = pastT.val g c := by
  have hgc : g ∈ collidingGenes newT pastT := mem_collidingGenes.mpr ⟨hg, hgp⟩
  have hgm : g ∈ (pastMerge newT pastT).idx :=
    mem_pastMerge_idx.mpr ⟨hgc, hgp⟩
  have hcc : c ∉ collidingColumns pastT newT :=
    fun hcon => hcn (mem_collidingColumns.mp hcon).2
  have hcm : c ∈ (pastMerge newT pastT).cols := by
    rw [pastMerge_cols]
    refine List.mem_filter.mpr ⟨hcp, ?_⟩
    simpa using hcc
  have hgx : g ∈ (mergeOuter newT (pastMerge newT pastT)).idx := by
    rw [mergeOuter_idx]
    exact mem_joinIdx_left hg
  have hcx : c ∈ (mergeOuter newT (pastMerge newT pastT)).cols := by
    rw [mergeOuter_cols]
    exact List.mem_append_right _ hcm
  unfold mergeBody
  rw [concatRows_val_left _ _ hgx hcx,
    mergeOuter_val_right _ _ hcn hcm hgm, pastMerge_val]

theorem mergeBody_val_appened (newT pastT : DF) {g c : String}
    (hgp : g ∈ pastT.idx) (hgn : g ∉ newT.idx) (hcp : c ∈ pastT.cols) :
    (mergeBody newT pastT).val g c = pastT.val g c := by
  have hgnc : g ∉ collidingGenes newT pastT :=
    fun hcon => hgn (mem_collidingGenes.mp hcon).1
  have hgy : g ∈ (pastAppened newT pastT).idx := by
    rw [pastAppened_idx]
    refine List.mem_filter.mpr ⟨hgp, ?_⟩
    simpa using hgnc
  have hgx : g ∉ (mergeOuter newT (pastMerge newT pastT)).idx := by
    rw [mergeOuter_idx]
    intro hcon
    rcases mem_joinIdx hcon with h1 | h1
    · exact hgn h1
    · exact hgnc (mem_pastMerge_idx.mp h1).1
  have hcy : c ∈ (pastAppened newT pastT).cols := by
    rw [pastAppened_cols]
    exact hcp
  unfold mergeBody
  rw [concatRows_val_right _ _ hgx hgy hcy, pastAppened_val]

theorem mem_mergeBody_idx_of_new {newT pastT : DF} {g : String}
    (hg : g ∈ newT.idx) : g ∈ (mergeBody newT pastT).idx := by
  rw [mergeBody_idx]
  exact List.mem_append_left _ (mem_joinIdx_left hg)

theorem mem_mergeBody_idx_of_past {newT pastT : DF} {g : String}
    (hgp : g ∈ pastT.idx) (hgn : g ∉ newT.idx) :
    g ∈ (mergeBody newT pastT).idx := by
  rw [mergeBody_idx]
  refine List.mem_append_right _ ?_
  rw [pastAppened_idx]
  refine List.mem_filter.mpr ⟨hgp, ?_⟩
  simpa using fun hcon => hgn (mem_collidingGenes.mp hcon).1

theorem filter_contains_self (l : List String) :
    l.filter (fun g => l.contains g) = l :=
  List.filter_eq_self.mpr (fun x hx => contains_iff_mem.mpr hx)

theorem filter_not_contains_nil {l cs : List String}
    (hsub : ∀ c ∈ l, c ∈ cs) : l.filter (fun c => !cs.contains c) = [] := by
  rw [List.filter_eq_nil_iff]
  intro x hx
  simpa using hsub x hx

theorem collidingGenes_self {T : DF} (h : T.idx.Nodup) :
    collidingGenes T T = T.idx := by
  unfold collidingGenes
  rw [filter_contains_self, List.dedup_eq_self.mpr h]

theorem pastMerge_self_idx {T : DF} (h : T.idx.Nodup) :
    (pastMerge T T).idx = T.idx := by
  show (collidingGenes T T).flatMap
      (fun k => T.idx.filter (fun g => g == k)) = T.idx
  rw [collidingGenes_self h]
  exact flatMap_singleton _ _ (fun k hk => filter_beq_singleton h hk)

theorem pastMerge_self_cols (T : DF) : (pastMerge T T).cols = [] := by
  rw [pastMerge_cols]
  exact filter_not_contains_nil (fun c hc =>
    List.mem_dedup.mpr (List.mem_filter.mpr
      ⟨hc, contains_iff_mem.mpr hc⟩))

theorem pastAppened_self_idx (T : DF) : (pastAppened T T).idx = [] := by
  rw [pastAppened_idx]
  exact filter_not_contains_nil (fun g hg =>
    mem_collidingGenes.mpr ⟨hg, hg⟩)

/-- Claim C2: a column collision outside the allow-list `{fasta,
gene_ids}` makes the merge raise a usage error naming the column when
`force` is false, and succeed when `force` is true with the colliding
column taking the new table's value on every row present in both
tables. -/
theorem C2_collision_refusal (pastT newT : DF) (X : String)
    (hXp : X ∈ pastT.cols) (hXn : X ∈ newT.cols)
    (hXk : X ∉ known_colliders) :
    (∃ errCols, merge_past_annotations newT pastT false
        = Except.error errCols ∧ X ∈ errCols) ∧
    (∃ R, merge_past_annotations newT pastT true = Except.ok R ∧
      ∀ g, g ∈ pastT.idx → g ∈ newT.idx → R.val g X = newT.val g X) := by
  have hXpc : X ∈ problemColliders pastT newT := by
    refine List.mem_filter.mpr ⟨?_, ?_⟩
    · exact List.mem_dedup.mpr
        (List.mem_filter.mpr ⟨hXp, contains_iff_mem.mpr hXn⟩)
    · simpa using hXk
  constructor
  · refine ⟨problemColliders pastT newT, ?_, hXpc⟩
    have hlen : 0 < (problemColliders pastT newT).length :=
      List.length_pos.mpr (List.ne_nil_of_mem hXpc)
    unfold merge_past_annotations
    rw [if_pos ⟨hlen, rfl⟩]
  · refine ⟨mergeBody newT pastT, ?_, ?_⟩
    · unfold merge_past_annotations
      rw [if_neg (by simp)]
    · intro g hgp hgn
      exact mergeBody_val_new newT pastT hgn hXn

/-- Past table for the C2 witness: columns `fasta` and `kegg_id`, rows
`A_1`, `A_2`. -/
def c2Past : DF :=
  ⟨["fasta", "kegg_id"], ["A_1", "A_2"],
    fun g c => some ("past." ++ g ++ "." ++ c)⟩

/-- New table for the C2 witness: the same columns, rows `A_1`, `A_3`. -/
def c2New : DF :=
  ⟨["fasta", "kegg_id"], ["A_1", "A_3"],
    fun g c => some ("new." ++ g ++ "." ++ c)⟩

/-- Witness for C2 at the colliding column `kegg_id`. -/
theorem C2_collision_refusal_witness :
    ("kegg_id" ∈ c2Past.cols ∧ "kegg_id" ∈ c2New.cols ∧
      "kegg_id" ∉ known_colliders) ∧
    ((∃ errCols, merge_past_annotations c2New c2Past false
        = Except.error errCols ∧ "kegg_id" ∈ errCols) ∧
    (∃ R, merge_past_annotations c2New c2Past true = Except.ok R ∧
      ∀ g, g ∈ c2Past.idx → g ∈ c2New.idx →
        R.val g "kegg_id" = c2New.val g "kegg_id")) :=
  ⟨⟨by decide, by decide, by decide⟩,
    C2_collision_refusal c2Past c2New "kegg_id" (by decide) (by decide)
      (by decide)⟩

/-- Claim C3: whenever the merge is not refused, colliding rows take the
new table's values exactly on the new table's columns while their
past-only columns keep the past values; past rows absent from the new
table appear unchanged; new rows absent from the past table appear with
the new values. -/
theorem C3_merge_frame_conditions (newT pastT : DF) (force : Bool) (R : DF)
    (h : merge_past_annotations newT pastT force = Except.ok R) :
    (∀ g, g ∈ newT.idx → g ∈ pastT.idx →
      (∀ c, c ∈ newT.cols → R.val g c = newT.val g c) ∧
      (∀ c, c ∈ pastT.cols → c ∉ newT.cols → R.val g c = pastT.val g c)) ∧
    (∀ g, g ∈ pastT.idx → g ∉ newT.idx →
      g ∈ R.idx ∧ ∀ c, c ∈ pastT.cols → R.val g c = pastT.val g c) ∧
    (∀ g, g ∈ newT.idx → g ∉ pastT.idx →
      g ∈ R.idx ∧ ∀ c, c ∈ newT.cols → R.val g c = newT.val g c) := by
  have hR : R = mergeBody newT pastT := by
    unfold merge_past_annotations at h
    by_cases hcond :
        0 < (problemColliders pastT newT).length ∧ force = false
    · rw [if_pos hcond] at h
      cases h
    · rw [if_neg hcond] at h
      exact (Except.ok.inj h).symm
  subst hR
  refine ⟨?_, ?_, ?_⟩
  · intro g hgn hgp
    exact ⟨fun c hc => mergeBody_val_new newT pastT hgn hc,
      fun c hcp hcn => mergeBody_val_past_only newT pastT hgn hgp hcp hcn⟩
  · intro g hgp hgn
    exact ⟨mem_mergeBody_idx_of_past hgp hgn,
      fun c hcp => mergeBody_val_appened newT pastT hgp hgn hcp⟩
  · intro g hgn _
    exact ⟨mem_mergeBody_idx_of_new hgn,
      fun c hc => mergeBody_val_new newT pastT hgn hc⟩

/-- Witness for C3 on the concrete pair of tables from the C2 witness
under `force`. -/
theorem C3_merge_frame_conditions_witness :
    merge_past_annotations c2New c2Past true
      = Except.ok (mergeBody c2New c2Past) ∧
    ((∀ g, g ∈ c2New.idx → g ∈ c2Past.idx →
      (∀ c, c ∈ c2New.cols →
        (mergeBody c2New c2Past).val g c = c2New.val g c) ∧
      (∀ c, c ∈ c2Past.cols → c ∉ c2New.cols →
        (mergeBody c2New c2Past).val g c = c2Past.val g c)) ∧
    (∀ g, g ∈ c2Past.idx → g ∉ c2New.idx →
      g ∈ (mergeBody c2New c2Past).idx ∧
      ∀ c, c ∈ c2Past.cols →
        (mergeBody c2New c2Past).val g c = c2Past.val g c) ∧
    (∀ g, g ∈ c2New.idx → g ∉ c2Past.idx →
      g ∈ (mergeBody c2New c2Past).idx ∧
      ∀ c, c ∈ c2New.cols →
        (mergeBody c2New c2Past).val g c = c2New.val g c)) :=
  ⟨rfl, C3_merge_frame_conditions c2New c2Past true (mergeBody c2New c2Past)
    rfl⟩

/-- Claim C4: merging a table with a duplicate-free gene-id index into
itself under `force` succeeds and returns a table with the same row
index, the same columns, and the same value in every cell. -/
theorem C4_merge_idempotent (T : DF) (h : T.idx.Nodup) :
    ∃ R, merge_past_annotations T T true = Except.ok R ∧
      R.idx = T.idx ∧ R.cols = T.cols ∧
      ∀ g c, g ∈ T.idx → c ∈ T.cols → R.val g c = T.val g c := by
  refine ⟨mergeBody T T, ?_, ?_, ?_, ?_⟩
  · unfold merge_past_annotations
    rw [if_neg (by simp)]
  · rw [mergeBody_idx, pastMerge_self_idx h, pastAppened_self_idx,
      joinIdx_eq_left h (fun x hx => hx), List.append_nil]
  · show (mergeOuter T (pastMerge T T)).cols
        ++ (pastAppened T T).cols.filter
          (fun c => !(mergeOuter T (pastMerge T T)).cols.contains c)
      = T.cols
    rw [mergeOuter_cols, pastMerge_self_cols, pastAppened_cols,
      List.append_nil]
    rw [filter_not_contains_nil (fun c hc => hc), List.append_nil]
  · intro g c hg hc
    exact mergeBody_val_new T T hg hc

/-- Table for the C4 witness. -/
def c4Table : DF :=
  ⟨["fasta", "kegg_id"], ["A_1", "A_2"],
    fun g c => some (g ++ "." ++ c)⟩

/-- Witness for C4 on a concrete duplicate-free table. -/
theorem C4_merge_idempotent_witness :
    c4Table.idx.Nodup ∧
    ∃ R, merge_past_annotations c4Table c4Table true = Except.ok R ∧
      R.idx = c4Table.idx ∧ R.cols = c4Table.cols ∧
      ∀ g c, g ∈ c4Table.idx → c ∈ c4Table.cols →
        R.val g c = c4Table.val g c :=
  ⟨by decide, C4_merge_idempotent c4Table (by decide)⟩

/-- Claim C10: with duplicate-free gene-id indexes the outer join of the
new table with the column-trimmed colliding subset of the past table has
exactly `max(|colliding subset|, |new|)` rows, so the
"may not have merged correctly" row-count-mismatch branch never fires
and the merge never aborts because of it. -/
theorem C10_row_count_guard (newT pastT : DF) (hn : newT.idx.Nodup)
    (hp : pastT.idx.Nodup) :
    (mergeOuter newT (pastMerge newT pastT)).idx.length
      = max (pastMerge newT pastT).idx.length newT.idx.length ∧
    merge_row_count_mismatch newT pastT = false := by
  have hpm : (pastMerge newT pastT).idx = collidingGenes newT pastT := by
    show (collidingGenes newT pastT).flatMap
        (fun k => pastT.idx.filter (fun g => g == k)) = _
    exact flatMap_singleton _ _ (fun k hk =>
      filter_beq_singleton hp (mem_collidingGenes.mp hk).2)
  have hjoin : joinIdx newT.idx (pastMerge newT pastT).idx = newT.idx := by
    rw [hpm]
    exact joinIdx_eq_left (nodup_collidingGenes _ _)
      (fun x hx => (mem_collidingGenes.mp hx).1)
  have hlen : (collidingGenes newT pastT).length ≤ newT.idx.length :=
    le_trans (List.dedup_sublist _).length_le
      (List.filter_sublist _).length_le
  have heq : (mergeOuter newT (pastMerge newT pastT)).idx.length
      = max (pastMerge newT pastT).idx.length newT.idx.length := by
    rw [mergeOuter_idx, hjoin, hpm]
    exact (max_eq_right hlen).symm
  exact ⟨heq, by simp [merge_row_count_mismatch, heq]⟩

/-- Witness for C10 on the concrete duplicate-free pair from the C2
witness. -/
theorem C10_row_count_guard_witness :
    (c2New.idx.Nodup ∧ c2Past.idx.Nodup) ∧
    ((mergeOuter c2New (pastMerge c2New c2Past)).idx.length
      = max (pastMerge c2New c2Past).idx.length c2New.idx.length ∧
    merge_row_count_mismatch c2New c2Past = false) :=
  ⟨⟨by decide, by decide⟩,
    C10_row_count_guard c2New c2Past (by decide) (by decide)⟩
